import Mathlib

/- Verification of the qfinance option pricing engine.
   Embedded modules: Option.py (contract construction and validation),
   black_scholes.py (analytic pricer, greeks, implied volatility solver),
   bopm.py (binomial lattice pricer and probability module). -/

open MeasureTheory

/-- Model of a numpy value of rank at most two: a python float or 0-d
array, a 1-d array, or a 2-d array stored as a list of rows. -/
inductive NP where
  | scalar (x : ℝ)
  | vec (xs : List ℝ)
  | mat (rows : List (List ℝ))

namespace NP

/-- Number of array dimensions, as reported by numpy ndim. -/
def ndim : NP → ℕ
  | scalar _ => 0
  | vec _ => 1
  | mat _ => 2

/-- Truthiness of a numpy value as computed by np.any: true when some
element is nonzero. -/
def truthy : NP → Prop
  | scalar x => x ≠ 0
  | vec xs => ∃ x ∈ xs, x ≠ 0
  | mat rows => ∃ row ∈ rows, ∃ x ∈ row, x ≠ 0

/-- Elementwise unary map, as a numpy ufunc acts on an array. -/
def umap (f : ℝ → ℝ) : NP → NP
  | scalar x => scalar (f x)
  | vec xs => vec (xs.map f)
  | mat rows => mat (rows.map (List.map f))

/-- Broadcast of a binary operation along one axis, following numpy rules:
equal lengths combine elementwise, a length-one operand stretches, and any
other combination is a broadcast error. -/
def bcast1 (f : ℝ → ℝ → ℝ) (xs ys : List ℝ) : Option (List ℝ) :=
  if xs.length = ys.length then some (List.zipWith f xs ys)
  else
    match xs, ys with
    | [a], ys => some (ys.map (fun b => f a b))
    | xs, [b] => some (xs.map (fun a => f a b))
    | _, _ => none

/-- Broadcast of a binary operation over the row axis of two 2-d arrays. -/
def bcast2 (f : ℝ → ℝ → ℝ) (xss yss : List (List ℝ)) : Option (List (List ℝ)) :=
  if xss.length = yss.length then (List.zipWith (bcast1 f) xss yss).mapM (fun o => o)
  else
    match xss, yss with
    | [xs], yss => yss.mapM (fun ys => bcast1 f xs ys)
    | xss, [ys] => xss.mapM (fun xs => bcast1 f xs ys)
    | _, _ => none

/-- Binary numpy operation with broadcasting over ranks zero to two. -/
def bop (f : ℝ → ℝ → ℝ) : NP → NP → Option NP
  | scalar a, scalar b => some (scalar (f a b))
  | scalar a, vec ys => some (vec (ys.map (fun b => f a b)))
  | vec xs, scalar b => some (vec (xs.map (fun a => f a b)))
  | scalar a, mat yss => some (mat (yss.map (List.map (fun b => f a b))))
  | mat xss, scalar b => some (mat (xss.map (List.map (fun a => f a b))))
  | vec xs, vec ys => (bcast1 f xs ys).map vec
  | vec xs, mat yss => (yss.mapM (fun ys => bcast1 f xs ys)).map mat
  | mat xss, vec ys => (xss.mapM (fun xs => bcast1 f xs ys)).map mat
  | mat xss, mat yss => (bcast2 f xss yss).map mat

/-- Slice dropping the last entry along the final axis, the numpy
expression v[..., :-1]; indexing a 0-d array this way is an error. -/
def slInit : NP → Option NP
  | scalar _ => none
  | vec xs => some (vec xs.dropLast)
  | mat rows => some (mat (rows.map List.dropLast))

/-- Slice dropping the first entry along the final axis, the numpy
expression v[..., 1:]. -/
def slTail : NP → Option NP
  | scalar _ => none
  | vec xs => some (vec xs.tail)
  | mat rows => some (mat (rows.map List.tail))

/-- Flatten to a 1-d array, as numpy flatten does. -/
def flatten : NP → NP
  | scalar x => vec [x]
  | vec xs => vec xs
  | mat rows => vec rows.flatten

/-- Extract the unique element, as numpy item does; an array with more
than one element raises. -/
def item : NP → Option ℝ
  | scalar x => some x
  | vec [x] => some x
  | mat [[x]] => some x
  | _ => none

/-- The helper named to col in bopm.py: a 1-d array of length M becomes an
M by 1 column, a scalar is left alone. A 2-d input would become 3-d in
numpy, which is outside this rank-two model. -/
def to_col : NP → Option NP
  | scalar x => some (scalar x)
  | vec xs => some (mat (xs.map (fun x => [x])))
  | mat _ => none

end NP

/-- Contract record with scalar numeric fields, mirroring the attributes
stored by the python class in Option.py. -/
structure OptionC where
  tau : ℝ
  spot : ℝ
  strike : ℝ
  sigma : ℝ
  r : ℝ
  div : ℝ
  type : String
  region : String

/-- Contract record whose numeric fields may be scalars or arrays, as the
python class stores whatever was passed in. -/
structure BOption where
  tau : NP
  spot : NP
  strike : NP
  sigma : NP
  r : NP
  div : NP
  type : String
  region : String

/-- View of a scalar contract as a batched one. -/
def OptionC.toB (o : OptionC) : BOption :=
  ⟨.scalar o.tau, .scalar o.spot, .scalar o.strike, .scalar o.sigma,
   .scalar o.r, .scalar o.div, o.type, o.region⟩

/-- Python string lowercasing, mapping every character to its lowercase
form, as the calls type.lower() and region.lower() do in Option.py. -/
def pyLower (s : String) : String := ⟨s.data.map Char.toLower⟩

open Classical in
/-- Embedding of the python constructor in Option.py. Each numeric guard
reproduces the source expression np.any(x) < 0 literally: np.any yields a
boolean, which python then compares against zero as the integer zero or
one. The enumeration guards lowercase the strings and admit exactly the
literals checked by the source. -/
noncomputable def mkOption (tau spot strike sigma r div : NP)
    (type region : String) : Except String BOption :=
  if (if NP.truthy tau then (1 : ℤ) else 0) < 0 then
    .error "Invalid Time-To-Maturity (negative value)"
  else if (if NP.truthy spot then (1 : ℤ) else 0) < 0 then
    .error "Invalid Spot price (negative value)"
  else if (if NP.truthy strike then (1 : ℤ) else 0) < 0 then
    .error "Invalid Strike price (negative value)"
  else if (if NP.truthy sigma then (1 : ℤ) else 0) < 0 then
    .error "Invalid Volatility (negative value)"
  else if (if NP.truthy div then (1 : ℤ) else 0) < 0 then
    .error "Invalid Dividend-yield (negative value)"
  else if pyLower type ≠ "call" ∧ pyLower type ≠ "put" then
    .error "Invalid Option type"
  else if pyLower region ≠ "eu" ∧ pyLower region ≠ "na" then
    .error "Invalid Option region"
  else .ok ⟨tau, spot, strike, sigma, r, div, pyLower type, pyLower region⟩

/-- The guard np.any(x) < 0 compares a boolean, coerced to zero or one,
against zero, so it can never hold. -/
theorem any_lt_zero_never (P : Prop) [Decidable P] :
    ¬ ((if P then (1 : ℤ) else 0) < 0) := by
  split <;> norm_num

namespace BS

/-- The density used by black_scholes.py: one over the square root of two
pi times the exponential of minus x squared over two. -/
noncomputable def dN (x : ℝ) : ℝ :=
  1 / Real.sqrt (2 * Real.pi) * Real.exp (-x ^ 2 / 2)

/-- The standard normal cumulative distribution function, the meaning of
the scipy call norm.cdf used by the source. -/
noncomputable def N (x : ℝ) : ℝ := ∫ t in Set.Iic x, dN t

/-- The quantity called d plus in the spec, from d 1 in black_scholes.py.
Note the source does not include the dividend yield. -/
noncomputable def d_1 (o : OptionC) : ℝ :=
  (Real.log (o.spot / o.strike) + (o.r + 0.5 * o.sigma ^ 2) * o.tau) /
    (o.sigma * Real.sqrt o.tau)

/-- The quantity called d minus in the spec, from d 2 in black_scholes.py. -/
noncomputable def d_2 (o : OptionC) : ℝ := d_1 o - o.sigma * Real.sqrt o.tau

/-- Closed form analytic price from black_scholes.py. -/
noncomputable def option_price (o : OptionC) : ℝ :=
  if o.type = "call" then
    N (d_1 o) * o.spot - N (d_2 o) * o.strike * Real.exp (-o.r * o.tau)
  else
    N (-d_2 o) * o.strike * Real.exp (-o.r * o.tau) - N (-d_1 o) * o.spot

/-- The greeks tuple delta, gamma, vega, theta, rho from black_scholes.py,
with the local names d1, d2, gamma and vega of the source inlined. -/
noncomputable def greeks (o : OptionC) : ℝ × ℝ × ℝ × ℝ × ℝ :=
  if o.type = "call" then
    (N (d_1 o),
      dN (d_1 o) / (o.spot * o.sigma * Real.sqrt o.tau),
      o.spot * dN (d_1 o) * Real.sqrt o.tau,
      -(o.spot * dN (d_1 o) * o.sigma) / (2 * Real.sqrt o.tau) -
        o.r * o.strike * Real.exp (-o.r * o.tau) * N (d_2 o),
      o.strike * o.tau * Real.exp (-o.r * o.tau) * N (d_2 o))
  else
    (N (d_1 o) - 1,
      dN (d_1 o) / (o.spot * o.sigma * Real.sqrt o.tau),
      o.spot * dN (d_1 o) * Real.sqrt o.tau,
      -(o.spot * dN (d_1 o) * o.sigma) / (2 * Real.sqrt o.tau) +
        o.r * o.strike * Real.exp (-o.r * o.tau) * N (-d_2 o),
      -o.strike * o.tau * Real.exp (-o.r * o.tau) * N (-d_2 o))

/-- Replace only the volatility field, the single mutation performed by
the implied volatility solver. -/
def setSigma (o : OptionC) (s : ℝ) : OptionC := { o with sigma := s }

/-- One Newton step of the solver: sigma minus price error over vega, with
the vega expression written inline exactly as in find_iv. -/
noncomputable def newtonStep (o : OptionC) (target sigma : ℝ) : ℝ :=
  sigma - (option_price (setSigma o sigma) - target) /
    ((setSigma o sigma).spot * dN (d_1 (setSigma o sigma)) *
      Real.sqrt (setSigma o sigma).tau)

open Classical in
/-- The solver loop of find_iv with fuel counting the remaining python
iterations. The state carries the contract whose sigma field is mutated in
place; the pair returned is the python return value, with none standing
for the nan sentinel, together with the contract as it is left behind. -/
noncomputable def findIVLoop (target : ℝ) : ℕ → OptionC → Option ℝ × OptionC
  | 0, st => (none, st)
  | fuel + 1, st =>
    let f := option_price st - target
    let df := st.spot * dN (d_1 st) * Real.sqrt st.tau
    let sigma_new := st.sigma - f / df
    if |sigma_new - st.sigma| < 1e-5 then (some sigma_new, st)
    else findIVLoop target fuel (setSigma st sigma_new)

/-- Embedding of find_iv together with its side effect on the contract. -/
noncomputable def find_iv_run (o : OptionC) (sigma_init target : ℝ) :
    Option ℝ × OptionC :=
  findIVLoop target 100 (setSigma o sigma_init)

/-- Embedding of find_iv in black_scholes.py, returning none for the nan
sentinel. -/
noncomputable def find_iv (o : OptionC) (sigma_init target : ℝ) : Option ℝ :=
  (find_iv_run o sigma_init target).1

end BS

namespace Bopm

/-- One backward induction sweep of the lattice in bopm.py. The fuel
counts the remaining python iterations; when it is k plus one the loop
variable i of the source equals k. Each iteration discounts the risk
neutral expectation of the two children and, when the region field equals
the literal us, rebuilds the asset prices of the current level and takes
the elementwise maximum with the exercise value. -/
noncomputable def backLoop (typ region : String) (spot strike u d p r dt : NP) :
    ℕ → NP → Option NP
  | 0, v => some v
  | k + 1, v => do
    let keep ← NP.slInit v
    let shift ← NP.slTail v
    let pa ← NP.bop (· * ·) p keep
    let q ← NP.bop (fun a b => a - b) (NP.scalar 1) p
    let qb ← NP.bop (· * ·) q shift
    let s ← NP.bop (· + ·) pa qb
    let nr ← NP.bop (· * ·) (NP.umap (fun x => -x) r) dt
    let cont ← NP.bop (· * ·) (NP.umap Real.exp nr) s
    let v2 ←
      if region = "us" then do
        let jc := NP.mat [(List.range (k + 1)).map (fun j : ℕ => (j : ℝ))]
        let ij ← NP.bop (fun a b => a - b) (NP.scalar (k : ℝ)) jc
        let uij ← NP.bop Real.rpow u ij
        let dj ← NP.bop Real.rpow d jc
        let t1 ← NP.bop (· * ·) spot uij
        let ca ← NP.bop (· * ·) t1 dj
        let ex ←
          if typ = "call" then do
            let dfr ← NP.bop (fun a b => a - b) ca strike
            pure (NP.umap (fun x => max x 0) dfr)
          else do
            let dfr ← NP.bop (fun a b => a - b) strike ca
            pure (NP.umap (fun x => max x 0) dfr)
        NP.bop (fun a b => max a b) cont ex
      else pure cont
    backLoop typ region spot strike u d p r dt k v2

/-- Embedding of option price in bopm.py, the vectorized lattice pricer.
The fields tau, strike and sigma are passed through the column helper;
spot, r and div are used exactly as stored, as in the source. A none
result models a numpy broadcast error or an unbound name in python. -/
noncomputable def option_price (o : BOption) (n : ℕ) : Option NP := do
  let tau ← NP.to_col o.tau
  let strike ← NP.to_col o.strike
  let sigma ← NP.to_col o.sigma
  let spot := o.spot
  let r := o.r
  let div := o.div
  let dt ← NP.bop (fun a b => a / b) tau (NP.scalar (n : ℝ))
  let usd ← NP.bop (· * ·) sigma (NP.umap Real.sqrt dt)
  let u := NP.umap Real.exp usd
  let d ← NP.bop (fun a b => a / b) (NP.scalar 1) u
  let rd ← NP.bop (fun a b => a - b) r div
  let rddt ← NP.bop (· * ·) rd dt
  let num ← NP.bop (fun a b => a - b) (NP.umap Real.exp rddt) d
  let den ← NP.bop (fun a b => a - b) u d
  let p ← NP.bop (fun a b => a / b) num den
  let j := NP.mat [(List.range (n + 1)).map (fun j : ℕ => (j : ℝ))]
  let nj ← NP.bop (fun a b => a - b) (NP.scalar (n : ℝ)) j
  let unj ← NP.bop Real.rpow u nj
  let dj ← NP.bop Real.rpow d j
  let t1 ← NP.bop (· * ·) spot unj
  let asset ← NP.bop (· * ·) t1 dj
  let ov ←
    if o.type = "call" then do
      let dfr ← NP.bop (fun a b => a - b) asset strike
      pure (NP.umap (fun x => max x 0) dfr)
    else if o.type = "put" then do
      let dfr ← NP.bop (fun a b => a - b) strike asset
      pure (NP.umap (fun x => max x 0) dfr)
    else none
  let fin ← backLoop o.type o.region spot strike u d p r dt n ov
  if NP.ndim fin > 1 then pure (NP.flatten fin) else do
    let x ← NP.item fin
    pure (NP.scalar x)

/-- Real world up probability used by the probability module, from the
expression in prob of profit in bopm.py, with the locals dt, u and d of
the source inlined. -/
noncomputable def p_real (o : OptionC) (mu : ℝ) (n : ℕ) : ℝ :=
  (Real.exp (mu * (o.tau / n)) -
      1 / Real.exp (o.sigma * Real.sqrt (o.tau / n))) /
    (Real.exp (o.sigma * Real.sqrt (o.tau / n)) -
      1 / Real.exp (o.sigma * Real.sqrt (o.tau / n)))

/-- Binomial probability mass, the value of the scipy call binom.pmf at j
for a success probability inside the unit interval. -/
noncomputable def binomPmf (n : ℕ) (p : ℝ) (j : ℕ) : ℝ :=
  (n.choose j : ℝ) * p ^ j * (1 - p) ^ (n - j)

/-- Terminal asset price of node j, the value final spot of bopm.py, with
the locals dt, u and d of the source inlined. -/
noncomputable def finalSpot (o : OptionC) (n j : ℕ) : ℝ :=
  o.spot *
    Real.rpow (Real.exp (o.sigma * Real.sqrt (o.tau / n))) ((n : ℝ) - (j : ℝ)) *
    Real.rpow (1 / Real.exp (o.sigma * Real.sqrt (o.tau / n))) (j : ℝ)

/-- Terminal payoff of node j as computed in prob of profit. -/
noncomputable def nodePayoff (o : OptionC) (n j : ℕ) : ℝ :=
  if o.type = "call" then max (finalSpot o n j - o.strike) 0
  else max (o.strike - finalSpot o n j) 0

/-- A node is profitable when its payoff beats the forward compounded
premium, as tested in prob of profit. -/
def profitable (o : OptionC) (pr : ℝ) (n j : ℕ) : Prop :=
  nodePayoff o n j > pr * Real.exp (o.r * o.tau)

/-- A node is in the money by strict comparison of terminal spot and
strike, with the direction fixed by the contract kind. -/
def inTheMoney (o : OptionC) (n j : ℕ) : Prop :=
  if o.type = "call" then finalSpot o n j > o.strike
  else finalSpot o n j < o.strike

open Classical in
/-- Total binomial mass on the profitable nodes. -/
noncomputable def popMass (o : OptionC) (pr mu : ℝ) (n : ℕ) : ℝ :=
  ∑ j ∈ Finset.range (n + 1),
    if profitable o pr n j then binomPmf n (p_real o mu n) j else 0

open Classical in
/-- Total binomial mass on the nodes that are not profitable. -/
noncomputable def notPopMass (o : OptionC) (pr mu : ℝ) (n : ℕ) : ℝ :=
  ∑ j ∈ Finset.range (n + 1),
    if ¬ profitable o pr n j then binomPmf n (p_real o mu n) j else 0

open Classical in
/-- Total binomial mass on the in the money nodes. -/
noncomputable def itmMass (o : OptionC) (mu : ℝ) (n : ℕ) : ℝ :=
  ∑ j ∈ Finset.range (n + 1),
    if inTheMoney o n j then binomPmf n (p_real o mu n) j else 0

/-- The single price value that the length one price array contributes to
every node comparison when broadcast, for a scalar contract. -/
def priceElem : NP → Option ℝ
  | .scalar x => some x
  | .vec [x] => some x
  | _ => none

/-- Embedding of prob of profit in bopm.py for a scalar contract: price
the contract on the lattice, broadcast the resulting one element array
against the terminal nodes, and sum the binomial masses of the profitable
and in the money nodes. -/
noncomputable def prob_of_profit (o : OptionC) (mu : ℝ) (n : ℕ) :
    Option (ℝ × ℝ) := do
  let pr0 ← option_price o.toB n
  let pr ← priceElem pr0
  pure (popMass o pr mu n, itmMass o mu n)

end Bopm

/-- The backward loop ignores the region string except for testing it
against the literal us, so any region other than us prices as european. -/
theorem backLoop_to_eu {rg : String} (h : rg ≠ "us") (typ : String)
    (spot strike u d p r dt : NP) : ∀ (k : ℕ) (v : NP),
    Bopm.backLoop typ rg spot strike u d p r dt k v =
      Bopm.backLoop typ "eu" spot strike u d p r dt k v := by
  intro k
  induction k with
  | zero => intro v; rfl
  | succ k ih =>
    intro v
    unfold Bopm.backLoop
    simp only [if_neg h, ih]
    have : ¬ ("eu" : String) = "us" := by decide
    simp only [if_neg this]

/-- C1: the claim expects an american contract to receive the early
exercise maximum at every interior node. In the code the constructor
rejects the region literal us that its own docstring advertises and that
the lattice pricer tests for; every constructible contract has region eu
or na, and each one is priced exactly as a european contract, so the
early exercise comparison is unreachable. -/
theorem american_region_unreachable :
    (mkOption (.scalar 1) (.scalar 100) (.scalar 90) (.scalar 0.2)
        (.scalar 0.02) (.scalar 0) "call" "us" =
      Except.error "Invalid Option region")
    ∧ (∀ tau spot strike sigma r div ty rg b,
        mkOption tau spot strike sigma r div ty rg = Except.ok b →
          b.region = "eu" ∨ b.region = "na")
    ∧ (∀ (b : BOption) (n : ℕ), b.region = "eu" ∨ b.region = "na" →
        Bopm.option_price b n = Bopm.option_price { b with region := "eu" } n) := by
  classical
  refine ⟨?_, ?_, ?_⟩
  · unfold mkOption
    rw [if_neg (any_lt_zero_never _), if_neg (any_lt_zero_never _),
      if_neg (any_lt_zero_never _), if_neg (any_lt_zero_never _),
      if_neg (any_lt_zero_never _)]
    rfl
  · intro tau spot strike sigma r div ty rg b h
    unfold mkOption at h
    rw [if_neg (any_lt_zero_never _), if_neg (any_lt_zero_never _),
      if_neg (any_lt_zero_never _), if_neg (any_lt_zero_never _),
      if_neg (any_lt_zero_never _)] at h
    split at h; · cases h
    split at h
    · cases h
    · next hreg =>
      rw [not_and_or, not_not, not_not] at hreg
      cases h
      exact hreg
  · intro b n hr
    have hne : b.region ≠ "us" := by
      rcases hr with h | h <;> rw [h] <;> decide
    unfold Bopm.option_price
    simp only [backLoop_to_eu hne]

/-- Witness for C1 at the contract built with region na, the only
constructible non european region. -/
theorem american_region_unreachable_witness :
    ((⟨.scalar 1, .scalar 100, .scalar 90, .scalar 0.2, .scalar 0.02,
        .scalar 0, "call", "na"⟩ : BOption).region = "eu" ∨
      (⟨.scalar 1, .scalar 100, .scalar 90, .scalar 0.2, .scalar 0.02,
        .scalar 0, "call", "na"⟩ : BOption).region = "na")
    ∧ Bopm.option_price
        (⟨.scalar 1, .scalar 100, .scalar 90, .scalar 0.2, .scalar 0.02,
          .scalar 0, "call", "na"⟩ : BOption) 1 =
      Bopm.option_price
        { (⟨.scalar 1, .scalar 100, .scalar 90, .scalar 0.2, .scalar 0.02,
            .scalar 0, "call", "na"⟩ : BOption) with region := "eu" } 1 :=
  ⟨american_region_unreachable.2.1 (.scalar 1) (.scalar 100) (.scalar 90)
      (.scalar 0.2) (.scalar 0.02) (.scalar 0) "call" "na" _
      (by
        classical
        unfold mkOption
        rw [if_neg (any_lt_zero_never _), if_neg (any_lt_zero_never _),
          if_neg (any_lt_zero_never _), if_neg (any_lt_zero_never _),
          if_neg (any_lt_zero_never _)]
        rfl),
    american_region_unreachable.2.2 _ 1 (Or.inr rfl)⟩

/-- C2 test theorem: a contract with a negative time to maturity is
accepted by the constructor, because the guard np.any(x) < 0 compares the
boolean result of np.any against zero and is always false, so the claimed
domain validation error is never raised. -/
theorem mkOption_accepts_negative_tau :
    mkOption (.scalar (-1)) (.scalar 100) (.scalar 90) (.scalar 0.2)
      (.scalar 0.02) (.scalar 0) "call" "eu" =
    Except.ok ⟨.scalar (-1), .scalar 100, .scalar 90, .scalar 0.2,
      .scalar 0.02, .scalar 0, "call", "eu"⟩ := by
  classical
  unfold mkOption
  rw [if_neg (any_lt_zero_never _), if_neg (any_lt_zero_never _),
    if_neg (any_lt_zero_never _), if_neg (any_lt_zero_never _),
    if_neg (any_lt_zero_never _)]
  rfl

namespace BS

/-- The density matches the gaussian with rate one half, up to constant. -/
theorem dN_eq (x : ℝ) :
    dN x = 1 / Real.sqrt (2 * Real.pi) * Real.exp (-(1 / 2) * x ^ 2) := by
  unfold dN
  ring_nf

/-- The density is integrable over the line. -/
theorem dN_integrable : Integrable dN := by
  have h : dN = fun x => 1 / Real.sqrt (2 * Real.pi) *
      Real.exp (-(1 / 2) * x ^ 2) := funext dN_eq
  rw [h]
  exact (integrable_exp_neg_mul_sq (by norm_num)).const_mul _

/-- The density is everywhere positive. -/
theorem dN_pos (x : ℝ) : 0 < dN x := by
  unfold dN
  have h2 : 0 < Real.sqrt (2 * Real.pi) :=
    Real.sqrt_pos.mpr (by positivity)
  positivity

/-- The density is even. -/
theorem dN_even (x : ℝ) : dN (-x) = dN x := by
  unfold dN
  rw [neg_sq]

/-- The density integrates to one over the line. -/
theorem integral_dN : ∫ x : ℝ, dN x = 1 := by
  have h : ∫ x : ℝ, dN x = 1 / Real.sqrt (2 * Real.pi) *
      ∫ x : ℝ, Real.exp (-(1 / 2) * x ^ 2) := by
    rw [← integral_mul_left]
    exact integral_congr_ae (Filter.Eventually.of_forall fun x => dN_eq x)
  rw [h, integral_gaussian]
  have h2 : Real.pi / (1 / 2) = 2 * Real.pi := by ring
  rw [h2]
  have hne : Real.sqrt (2 * Real.pi) ≠ 0 :=
    ne_of_gt (Real.sqrt_pos.mpr (by positivity))
  field_simp

/-- Symmetry of the cumulative distribution function. -/
theorem N_add_N_neg (x : ℝ) : N x + N (-x) = 1 := by
  have h1 : N (-x) = ∫ t in Set.Ioi x, dN t := by
    unfold N
    have h2 : (∫ t in Set.Iic (-x), dN t) = ∫ t in Set.Iic (-x), dN (-t) :=
      integral_congr_ae (Filter.Eventually.of_forall fun t => (dN_even t).symm)
    rw [h2, integral_comp_neg_Iic, neg_neg]
  rw [h1]
  unfold N
  rw [intervalIntegral.integral_Iic_add_Ioi dN_integrable.integrableOn
    dN_integrable.integrableOn]
  exact integral_dN

/-- Strict monotonicity of the cumulative distribution function. -/
theorem N_strictMono {a b : ℝ} (h : a < b) : N a < N b := by
  have hsub : N b - N a = ∫ t in a..b, dN t := by
    unfold N
    exact intervalIntegral.integral_Iic_sub_Iic dN_integrable.integrableOn
      dN_integrable.integrableOn
  have hpos : 0 < ∫ t in a..b, dN t :=
    intervalIntegral.intervalIntegral_pos_of_pos
      dN_integrable.intervalIntegrable dN_pos h
  linarith

end BS

/-- Put call parity as the code actually satisfies it: the analytic pricer
never reads the dividend yield, so the spot term carries no discount. -/
theorem bs_parity_aux (o : OptionC) (hc : o.type = "call") :
    BS.option_price o - BS.option_price { o with type := "put" } =
      o.spot - o.strike * Real.exp (-o.r * o.tau) := by
  have hd1 : BS.d_1 { o with type := "put" } = BS.d_1 o := rfl
  have hd2 : BS.d_2 { o with type := "put" } = BS.d_2 o := rfl
  unfold BS.option_price
  rw [if_pos hc, if_neg (by simp)]
  simp only [hd1, hd2]
  have h1 := BS.N_add_N_neg (BS.d_1 o)
  have h2 := BS.N_add_N_neg (BS.d_2 o)
  linear_combination o.spot * h1 -
    o.strike * Real.exp (-o.r * o.tau) * h2

/-- C4 amended: for matching call and put contracts the analytic prices
satisfy parity with an undiscounted spot term, because the analytic
pricer ignores the dividend yield; the claimed dividend discount factor
on the spot is absent from the code. -/
theorem put_call_parity_no_dividend (o : OptionC) (hc : o.type = "call")
    (hs : 0 < o.sigma) (ht : 0 < o.tau) :
    BS.option_price o - BS.option_price { o with type := "put" } =
      o.spot - o.strike * Real.exp (-o.r * o.tau) :=
  bs_parity_aux o hc

/-- Witness for the amended parity at a concrete contract. -/
theorem put_call_parity_no_dividend_witness :
    BS.option_price ⟨1, 100, 90, 0.2, 0.02, 0, "call", "eu"⟩ -
      BS.option_price ⟨1, 100, 90, 0.2, 0.02, 0, "put", "eu"⟩ =
    100 - 90 * Real.exp (-(0.02 : ℝ) * 1) :=
  put_call_parity_no_dividend ⟨1, 100, 90, 0.2, 0.02, 0, "call", "eu"⟩ rfl
    (by norm_num) (by norm_num)

/-- C4 counterexample: with dividend yield one, zero rate, unit spot and
strike of one hundred, the price difference is zero while the claimed
right hand side spot times the dividend discount minus strike times the
rate discount is negative, so the claim with the dividend factor fails. -/
theorem put_call_parity_dividend_cex :
    BS.option_price ⟨1, 100, 100, 1, 0, 1, "call", "eu"⟩ -
      BS.option_price ⟨1, 100, 100, 1, 0, 1, "put", "eu"⟩ ≠
    100 * Real.exp (-(1 : ℝ) * 1) - 100 * Real.exp (-(0 : ℝ) * 1) := by
  have hp : BS.option_price ⟨1, 100, 100, 1, 0, 1, "call", "eu"⟩ -
      BS.option_price ⟨1, 100, 100, 1, 0, 1, "put", "eu"⟩ =
      (100 : ℝ) - 100 * Real.exp (-(0 : ℝ) * 1) :=
    bs_parity_aux ⟨1, 100, 100, 1, 0, 1, "call", "eu"⟩ rfl
  rw [hp]
  have h1 : Real.exp (-(1 : ℝ) * 1) < 1 := by
    rw [Real.exp_lt_one_iff]
    norm_num
  have h2 : Real.exp (-(0 : ℝ) * 1) = 1 := by
    rw [show -(0 : ℝ) * 1 = 0 by ring, Real.exp_zero]
  rw [h2]
  intro h
  nlinarith

/-- C5: for positive sigma and tau the analytic price equals the claimed
closed form, with the normal arguments spelled out exactly as in the
claim, for the call and the put branch respectively. -/
theorem analytic_price_formula (o : OptionC) (hs : 0 < o.sigma)
    (ht : 0 < o.tau) :
    (o.type = "call" →
      BS.option_price o =
        BS.N ((Real.log (o.spot / o.strike) + (o.r + o.sigma ^ 2 / 2) * o.tau) /
            (o.sigma * Real.sqrt o.tau)) * o.spot -
          BS.N ((Real.log (o.spot / o.strike) + (o.r + o.sigma ^ 2 / 2) * o.tau) /
              (o.sigma * Real.sqrt o.tau) - o.sigma * Real.sqrt o.tau) *
            o.strike * Real.exp (-o.r * o.tau))
    ∧ (o.type = "put" →
      BS.option_price o =
        BS.N (-((Real.log (o.spot / o.strike) + (o.r + o.sigma ^ 2 / 2) * o.tau) /
              (o.sigma * Real.sqrt o.tau) - o.sigma * Real.sqrt o.tau)) *
            o.strike * Real.exp (-o.r * o.tau) -
          BS.N (-((Real.log (o.spot / o.strike) + (o.r + o.sigma ^ 2 / 2) * o.tau) /
              (o.sigma * Real.sqrt o.tau))) * o.spot) := by
  have h1 : (Real.log (o.spot / o.strike) + (o.r + o.sigma ^ 2 / 2) * o.tau) /
      (o.sigma * Real.sqrt o.tau) = BS.d_1 o := by
    unfold BS.d_1
    ring_nf
  constructor
  · intro hty
    unfold BS.option_price BS.d_2
    rw [if_pos hty, h1]
  · intro hty
    unfold BS.option_price BS.d_2
    rw [if_neg (by rw [hty]; decide), h1]

/-- Witness for the price formula at a concrete call and a concrete put. -/
theorem analytic_price_formula_witness :
    (BS.option_price ⟨1, 100, 90, 0.2, 0.02, 0, "call", "eu"⟩ =
      BS.N ((Real.log ((100 : ℝ) / 90) + ((0.02 : ℝ) + (0.2 : ℝ) ^ 2 / 2) * 1) /
          ((0.2 : ℝ) * Real.sqrt 1)) * 100 -
        BS.N ((Real.log ((100 : ℝ) / 90) + ((0.02 : ℝ) + (0.2 : ℝ) ^ 2 / 2) * 1) /
            ((0.2 : ℝ) * Real.sqrt 1) - (0.2 : ℝ) * Real.sqrt 1) * 90 *
          Real.exp (-(0.02 : ℝ) * 1))
    ∧ (BS.option_price ⟨1, 100, 90, 0.2, 0.02, 0, "put", "eu"⟩ =
      BS.N (-((Real.log ((100 : ℝ) / 90) + ((0.02 : ℝ) + (0.2 : ℝ) ^ 2 / 2) * 1) /
            ((0.2 : ℝ) * Real.sqrt 1) - (0.2 : ℝ) * Real.sqrt 1)) * 90 *
          Real.exp (-(0.02 : ℝ) * 1) -
        BS.N (-((Real.log ((100 : ℝ) / 90) + ((0.02 : ℝ) + (0.2 : ℝ) ^ 2 / 2) * 1) /
            ((0.2 : ℝ) * Real.sqrt 1))) * 100) :=
  ⟨(analytic_price_formula ⟨1, 100, 90, 0.2, 0.02, 0, "call", "eu"⟩
      (by norm_num) (by norm_num)).1 rfl,
    (analytic_price_formula ⟨1, 100, 90, 0.2, 0.02, 0, "put", "eu"⟩
      (by norm_num) (by norm_num)).2 rfl⟩

/-- C8 amended: the put greeks as the code computes them; the theta and
rho risk free terms carry the reflected argument of the cumulative normal,
minus d two, not the call branch argument d two. -/
theorem put_greeks_sign_conventions (o : OptionC) (hp : o.type = "put")
    (hs : 0 < o.sigma) (ht : 0 < o.tau) :
    BS.greeks o =
      (BS.N (BS.d_1 o) - 1,
        BS.dN (BS.d_1 o) / (o.spot * o.sigma * Real.sqrt o.tau),
        o.spot * BS.dN (BS.d_1 o) * Real.sqrt o.tau,
        -(o.spot * BS.dN (BS.d_1 o) * o.sigma) / (2 * Real.sqrt o.tau) +
          o.r * o.strike * Real.exp (-o.r * o.tau) * BS.N (-BS.d_2 o),
        -(o.strike * o.tau * Real.exp (-o.r * o.tau) * BS.N (-BS.d_2 o))) := by
  unfold BS.greeks
  rw [if_neg (by rw [hp]; decide)]
  refine Prod.ext rfl (Prod.ext rfl (Prod.ext rfl (Prod.ext rfl ?_)))
  show -o.strike * o.tau * Real.exp (-o.r * o.tau) * BS.N (-BS.d_2 o) =
    -(o.strike * o.tau * Real.exp (-o.r * o.tau) * BS.N (-BS.d_2 o))
  ring

/-- Witness for the amended put greeks at a concrete put contract. -/
theorem put_greeks_sign_conventions_witness :
    BS.greeks ⟨1, 100, 100, 1, 1, 0, "put", "eu"⟩ =
      (BS.N (BS.d_1 ⟨1, 100, 100, 1, 1, 0, "put", "eu"⟩) - 1,
        BS.dN (BS.d_1 ⟨1, 100, 100, 1, 1, 0, "put", "eu"⟩) /
          (100 * 1 * Real.sqrt 1),
        100 * BS.dN (BS.d_1 ⟨1, 100, 100, 1, 1, 0, "put", "eu"⟩) * Real.sqrt 1,
        -(100 * BS.dN (BS.d_1 ⟨1, 100, 100, 1, 1, 0, "put", "eu"⟩) * 1) /
            (2 * Real.sqrt 1) +
          1 * 100 * Real.exp (-(1 : ℝ) * 1) *
            BS.N (-BS.d_2 ⟨1, 100, 100, 1, 1, 0, "put", "eu"⟩),
        -(100 * 1 * Real.exp (-(1 : ℝ) * 1) *
          BS.N (-BS.d_2 ⟨1, 100, 100, 1, 1, 0, "put", "eu"⟩))) :=
  put_greeks_sign_conventions ⟨1, 100, 100, 1, 1, 0, "put", "eu"⟩ rfl
    (by norm_num) (by norm_num)

/-- At the chosen put contract d one evaluates to three halves. -/
theorem put_cex_d1 : BS.d_1 ⟨1, 100, 100, 1, 1, 0, "put", "eu"⟩ = 1.5 := by
  unfold BS.d_1
  norm_num

/-- At the chosen put contract d two evaluates to one half. -/
theorem put_cex_d2 : BS.d_2 ⟨1, 100, 100, 1, 1, 0, "put", "eu"⟩ = 0.5 := by
  unfold BS.d_2
  rw [put_cex_d1]
  norm_num

/-- C8 counterexample: at a concrete put contract the code rho differs
from the negated call branch magnitude with argument d two, and the code
theta differs from the call branch theta with the risk free term flipped
but the argument d two kept; the code uses minus d two in both places. -/
theorem put_theta_rho_argument_cex :
    ((BS.greeks ⟨1, 100, 100, 1, 1, 0, "put", "eu"⟩).2.2.2.2 ≠
      -(100 * 1 * Real.exp (-(1 : ℝ) * 1) *
        BS.N (BS.d_2 ⟨1, 100, 100, 1, 1, 0, "put", "eu"⟩)))
    ∧ ((BS.greeks ⟨1, 100, 100, 1, 1, 0, "put", "eu"⟩).2.2.2.1 ≠
      -(100 * BS.dN (BS.d_1 ⟨1, 100, 100, 1, 1, 0, "put", "eu"⟩) * 1) /
          (2 * Real.sqrt 1) +
        1 * 100 * Real.exp (-(1 : ℝ) * 1) *
          BS.N (BS.d_2 ⟨1, 100, 100, 1, 1, 0, "put", "eu"⟩)) := by
  have hlt : BS.N (-(0.5 : ℝ)) < BS.N 0.5 := BS.N_strictMono (by norm_num)
  have hE : 0 < Real.exp (-(1 : ℝ) * 1) := Real.exp_pos _
  constructor
  · have hgr : (BS.greeks ⟨1, 100, 100, 1, 1, 0, "put", "eu"⟩).2.2.2.2 =
        -(100 : ℝ) * 1 * Real.exp (-(1 : ℝ) * 1) *
          BS.N (-BS.d_2 ⟨1, 100, 100, 1, 1, 0, "put", "eu"⟩) := by
      unfold BS.greeks
      rw [if_neg (by decide)]
    rw [hgr, put_cex_d2]
    intro h
    nlinarith [mul_pos hE (sub_pos.mpr hlt)]
  · have hgr : (BS.greeks ⟨1, 100, 100, 1, 1, 0, "put", "eu"⟩).2.2.2.1 =
        -((100 : ℝ) * BS.dN (BS.d_1 ⟨1, 100, 100, 1, 1, 0, "put", "eu"⟩) * 1) /
            (2 * Real.sqrt 1) +
          1 * 100 * Real.exp (-(1 : ℝ) * 1) *
            BS.N (-BS.d_2 ⟨1, 100, 100, 1, 1, 0, "put", "eu"⟩) := by
      unfold BS.greeks
      rw [if_neg (by decide)]
    rw [hgr, put_cex_d2]
    intro h
    nlinarith [mul_pos hE (sub_pos.mpr hlt)]

namespace BS

/-- Convergence test of the solver at a candidate sigma: the next Newton
iterate moves by less than the tolerance of the source. -/
noncomputable def tolMet (o : OptionC) (target sigma : ℝ) : Prop :=
  |newtonStep o target sigma - sigma| < 1e-5

/-- Writing sigma twice keeps only the second write. -/
theorem setSigma_setSigma (o : OptionC) (s v : ℝ) :
    setSigma (setSigma o s) v = setSigma o v := rfl

/-- If no iterate within the fuel meets the tolerance, the loop runs the
fuel out, returns the nan sentinel, and leaves the last iterate written in
the sigma field. -/
theorem findIVLoop_eq_none (o : OptionC) (t : ℝ) :
    ∀ (fuel : ℕ) (sigma : ℝ),
    (∀ i < fuel, ¬ tolMet o t ((newtonStep o t)^[i] sigma)) →
    findIVLoop t fuel (setSigma o sigma) =
      (none, setSigma o ((newtonStep o t)^[fuel] sigma)) := by
  classical
  intro fuel
  induction fuel with
  | zero => intro sigma h; simp [findIVLoop]
  | succ fuel ih =>
    intro sigma h
    show (if tolMet o t sigma then (some (newtonStep o t sigma), setSigma o sigma)
      else findIVLoop t fuel (setSigma o (newtonStep o t sigma))) =
      (none, setSigma o ((newtonStep o t)^[fuel + 1] sigma))
    rw [if_neg (by simpa using h 0 (Nat.succ_pos _))]
    rw [ih (newtonStep o t sigma) (fun i hi => by
      rw [← Function.iterate_succ_apply]
      exact h (i + 1) (by omega))]
    rw [← Function.iterate_succ_apply]

/-- If some iterate meets the tolerance, the loop stops at the first such
iterate, returns the step taken from it, and leaves that iterate written
in the sigma field. -/
theorem findIVLoop_eq_some (o : OptionC) (t : ℝ) :
    ∀ (fuel i : ℕ) (sigma : ℝ), i < fuel →
    tolMet o t ((newtonStep o t)^[i] sigma) →
    (∀ j < i, ¬ tolMet o t ((newtonStep o t)^[j] sigma)) →
    findIVLoop t fuel (setSigma o sigma) =
      (some (newtonStep o t ((newtonStep o t)^[i] sigma)),
        setSigma o ((newtonStep o t)^[i] sigma)) := by
  classical
  intro fuel
  induction fuel with
  | zero => intro i sigma hi; omega
  | succ fuel ih =>
    intro i sigma hi hmet hmin
    show (if tolMet o t sigma then (some (newtonStep o t sigma), setSigma o sigma)
      else findIVLoop t fuel (setSigma o (newtonStep o t sigma))) = _
    cases i with
    | zero =>
      rw [if_pos (by simpa using hmet)]
      simp
    | succ j =>
      rw [if_neg (by simpa using hmin 0 (Nat.succ_pos _))]
      rw [ih j (newtonStep o t sigma) (by omega)
        (by rw [← Function.iterate_succ_apply]; exact hmet)
        (fun k hk => by
          rw [← Function.iterate_succ_apply]
          exact hmin (k + 1) (by omega))]
      rw [← Function.iterate_succ_apply]

end BS

open Classical in
/-- C3: the solver performs at most one hundred Newton iterations of the
step sigma minus price error over vega; it returns the new iterate at the
first index whose move is below the tolerance, and returns the nan
sentinel, modelled by none, when no index below one hundred converges. -/
theorem newton_solver_characterization (o : OptionC) (sigma_init target : ℝ) :
    BS.find_iv o sigma_init target =
      if h : ∃ i, i < 100 ∧
          BS.tolMet o target ((BS.newtonStep o target)^[i] sigma_init) then
        some (BS.newtonStep o target
          ((BS.newtonStep o target)^[Nat.find (Exists.imp (fun i hi => hi.2) h)]
            sigma_init))
      else none := by
  unfold BS.find_iv BS.find_iv_run
  split
  · next h =>
    have hQ := Nat.find_spec (Exists.imp (fun i hi => hi.2) h)
    have hmin : ∀ j < Nat.find (Exists.imp (fun i hi => hi.2) h),
        ¬ BS.tolMet o target ((BS.newtonStep o target)^[j] sigma_init) :=
      fun j hj => Nat.find_min (Exists.imp (fun i hi => hi.2) h) hj
    have hlt : Nat.find (Exists.imp (fun i hi => hi.2) h) < 100 := by
      obtain ⟨i, hi1, hQi⟩ := id h
      have h2 := Nat.find_min' (Exists.imp (fun i hi => hi.2) h) hQi
      omega
    rw [BS.findIVLoop_eq_some o target 100 _ sigma_init hlt hQ hmin]
  · next h =>
    have hall : ∀ i < 100,
        ¬ BS.tolMet o target ((BS.newtonStep o target)^[i] sigma_init) := by
      intro i hi hQ
      exact h ⟨i, hi, hQ⟩
    rw [BS.findIVLoop_eq_none o target 100 sigma_init hall]

open Classical in
/-- Witness for the solver characterization at a concrete contract, a
concrete initial guess and a concrete observed price. -/
theorem newton_solver_characterization_witness :
    BS.find_iv ⟨1, 100, 90, 0.2, 0.02, 0, "call", "eu"⟩ 0.2 10 =
      if h : ∃ i, i < 100 ∧
          BS.tolMet ⟨1, 100, 90, 0.2, 0.02, 0, "call", "eu"⟩ 10
            ((BS.newtonStep ⟨1, 100, 90, 0.2, 0.02, 0, "call", "eu"⟩ 10)^[i] 0.2) then
        some (BS.newtonStep ⟨1, 100, 90, 0.2, 0.02, 0, "call", "eu"⟩ 10
          ((BS.newtonStep ⟨1, 100, 90, 0.2, 0.02, 0, "call", "eu"⟩ 10)^[Nat.find
            (Exists.imp (fun i hi => hi.2) h)] 0.2))
      else none :=
  newton_solver_characterization ⟨1, 100, 90, 0.2, 0.02, 0, "call", "eu"⟩ 0.2 10

open Classical in
/-- C10: the solver writes only the sigma field of the contract; on a
convergent return the returned value is not written back, so the sigma
field holds the previous iterate, within the tolerance of the returned
value, and on a nan return it holds the last computed iterate. -/
theorem find_iv_frame_effect (o : OptionC) (sigma_init target : ℝ) :
    (BS.find_iv_run o sigma_init target).2.tau = o.tau
    ∧ (BS.find_iv_run o sigma_init target).2.spot = o.spot
    ∧ (BS.find_iv_run o sigma_init target).2.strike = o.strike
    ∧ (BS.find_iv_run o sigma_init target).2.r = o.r
    ∧ (BS.find_iv_run o sigma_init target).2.div = o.div
    ∧ (BS.find_iv_run o sigma_init target).2.type = o.type
    ∧ (BS.find_iv_run o sigma_init target).2.region = o.region
    ∧ (BS.find_iv_run o sigma_init target).2.sigma =
        (if h : ∃ i, i < 100 ∧
            BS.tolMet o target ((BS.newtonStep o target)^[i] sigma_init) then
          (BS.newtonStep o target)^[Nat.find (Exists.imp (fun i hi => hi.2) h)]
            sigma_init
        else (BS.newtonStep o target)^[100] sigma_init)
    ∧ ((BS.find_iv_run o sigma_init target).1.elim
        ((BS.find_iv_run o sigma_init target).2.sigma =
          (BS.newtonStep o target)^[100] sigma_init)
        (fun v => |v - (BS.find_iv_run o sigma_init target).2.sigma| < 1e-5)) := by
  classical
  by_cases h : ∃ i, i < 100 ∧
      BS.tolMet o target ((BS.newtonStep o target)^[i] sigma_init)
  · have hQ := Nat.find_spec (Exists.imp (fun i hi => hi.2) h)
    have hmin : ∀ j < Nat.find (Exists.imp (fun i hi => hi.2) h),
        ¬ BS.tolMet o target ((BS.newtonStep o target)^[j] sigma_init) :=
      fun j hj => Nat.find_min (Exists.imp (fun i hi => hi.2) h) hj
    have hlt : Nat.find (Exists.imp (fun i hi => hi.2) h) < 100 := by
      obtain ⟨i, hi1, hQi⟩ := id h
      have h2 := Nat.find_min' (Exists.imp (fun i hi => hi.2) h) hQi
      omega
    have hrun : BS.find_iv_run o sigma_init target =
        (some (BS.newtonStep o target ((BS.newtonStep o target)^[Nat.find
            (Exists.imp (fun i hi => hi.2) h)] sigma_init)),
          BS.setSigma o ((BS.newtonStep o target)^[Nat.find
            (Exists.imp (fun i hi => hi.2) h)] sigma_init)) :=
      BS.findIVLoop_eq_some o target 100 _ sigma_init hlt hQ hmin
    rw [hrun]
    refine ⟨rfl, rfl, rfl, rfl, rfl, rfl, rfl, ?_, ?_⟩
    · rw [dif_pos h]
      rfl
    · exact hQ
  · have hall : ∀ i < 100,
        ¬ BS.tolMet o target ((BS.newtonStep o target)^[i] sigma_init) := by
      intro i hi hQ
      exact h ⟨i, hi, hQ⟩
    have hrun : BS.find_iv_run o sigma_init target =
        (none, BS.setSigma o ((BS.newtonStep o target)^[100] sigma_init)) :=
      BS.findIVLoop_eq_none o target 100 sigma_init hall
    rw [hrun]
    refine ⟨rfl, rfl, rfl, rfl, rfl, rfl, rfl, ?_, rfl⟩
    rw [dif_neg h]
    rfl

open Classical in
/-- Witness for the frame effect of the solver at a concrete contract. -/
theorem find_iv_frame_effect_witness :
    (BS.find_iv_run ⟨1, 100, 90, 0.2, 0.02, 0, "call", "eu"⟩ 0.2 10).2.tau = 1
    ∧ (BS.find_iv_run ⟨1, 100, 90, 0.2, 0.02, 0, "call", "eu"⟩ 0.2 10).2.spot = 100
    ∧ (BS.find_iv_run ⟨1, 100, 90, 0.2, 0.02, 0, "call", "eu"⟩ 0.2 10).2.strike = 90
    ∧ (BS.find_iv_run ⟨1, 100, 90, 0.2, 0.02, 0, "call", "eu"⟩ 0.2 10).2.r = 0.02
    ∧ (BS.find_iv_run ⟨1, 100, 90, 0.2, 0.02, 0, "call", "eu"⟩ 0.2 10).2.div = 0
    ∧ (BS.find_iv_run ⟨1, 100, 90, 0.2, 0.02, 0, "call", "eu"⟩ 0.2 10).2.type = "call"
    ∧ (BS.find_iv_run ⟨1, 100, 90, 0.2, 0.02, 0, "call", "eu"⟩ 0.2 10).2.region = "eu"
    ∧ (BS.find_iv_run ⟨1, 100, 90, 0.2, 0.02, 0, "call", "eu"⟩ 0.2 10).2.sigma =
        (if h : ∃ i, i < 100 ∧
            BS.tolMet ⟨1, 100, 90, 0.2, 0.02, 0, "call", "eu"⟩ 10
              ((BS.newtonStep ⟨1, 100, 90, 0.2, 0.02, 0, "call", "eu"⟩ 10)^[i] 0.2) then
          (BS.newtonStep ⟨1, 100, 90, 0.2, 0.02, 0, "call", "eu"⟩ 10)^[Nat.find
            (Exists.imp (fun i hi => hi.2) h)] 0.2
        else (BS.newtonStep ⟨1, 100, 90, 0.2, 0.02, 0, "call", "eu"⟩ 10)^[100] 0.2)
    ∧ ((BS.find_iv_run ⟨1, 100, 90, 0.2, 0.02, 0, "call", "eu"⟩ 0.2 10).1.elim
        ((BS.find_iv_run ⟨1, 100, 90, 0.2, 0.02, 0, "call", "eu"⟩ 0.2 10).2.sigma =
          (BS.newtonStep ⟨1, 100, 90, 0.2, 0.02, 0, "call", "eu"⟩ 10)^[100] 0.2)
        (fun v =>
          |v - (BS.find_iv_run ⟨1, 100, 90, 0.2, 0.02, 0, "call", "eu"⟩ 0.2 10).2.sigma|
            < 1e-5)) :=
  find_iv_frame_effect ⟨1, 100, 90, 0.2, 0.02, 0, "call", "eu"⟩ 0.2 10

open Classical in
/-- C9: when the real world up probability lies in the unit interval, the
binomial masses over the full set of terminal nodes sum to one, and the
probability of profit plus the mass of the nodes that are not profitable
equals one. -/
theorem binom_mass_complement (o : OptionC) (mu pr : ℝ) (n : ℕ)
    (h0 : 0 ≤ Bopm.p_real o mu n) (h1 : Bopm.p_real o mu n ≤ 1) :
    (∑ j ∈ Finset.range (n + 1), Bopm.binomPmf n (Bopm.p_real o mu n) j) = 1
    ∧ Bopm.popMass o pr mu n + Bopm.notPopMass o pr mu n = 1 := by
  have hsum : (∑ j ∈ Finset.range (n + 1),
      Bopm.binomPmf n (Bopm.p_real o mu n) j) = 1 := by
    unfold Bopm.binomPmf
    calc ∑ j ∈ Finset.range (n + 1),
          (n.choose j : ℝ) * Bopm.p_real o mu n ^ j *
            (1 - Bopm.p_real o mu n) ^ (n - j)
        = ∑ j ∈ Finset.range (n + 1),
            Bopm.p_real o mu n ^ j * (1 - Bopm.p_real o mu n) ^ (n - j) *
              (n.choose j : ℝ) := by
          refine Finset.sum_congr rfl fun j hj => by ring
      _ = (Bopm.p_real o mu n + (1 - Bopm.p_real o mu n)) ^ n :=
          (add_pow _ _ n).symm
      _ = 1 := by norm_num
  refine ⟨hsum, ?_⟩
  unfold Bopm.popMass Bopm.notPopMass
  rw [← Finset.sum_add_distrib]
  rw [← hsum]
  refine Finset.sum_congr rfl fun j hj => ?_
  by_cases hP : Bopm.profitable o pr n j
  · rw [if_pos hP, if_neg (not_not_intro hP), add_zero]
  · rw [if_neg hP, if_pos hP, zero_add]

/-- With zero drift the real world up probability lies in the unit
interval as soon as the volatility step is positive. -/
theorem p_real_mem_unit (o : OptionC) (n : ℕ)
    (h : 0 < o.sigma * Real.sqrt (o.tau / n)) :
    0 ≤ Bopm.p_real o 0 n ∧ Bopm.p_real o 0 n ≤ 1 := by
  unfold Bopm.p_real
  have hu : 1 < Real.exp (o.sigma * Real.sqrt (o.tau / n)) := by
    rw [Real.one_lt_exp_iff]
    exact h
  have hd0 : 0 < 1 / Real.exp (o.sigma * Real.sqrt (o.tau / n)) := by positivity
  have hd1 : 1 / Real.exp (o.sigma * Real.sqrt (o.tau / n)) < 1 := by
    rw [div_lt_one (by positivity)]
    exact hu
  rw [zero_mul, Real.exp_zero]
  constructor
  · apply div_nonneg <;> linarith
  · rw [div_le_one (by linarith)]
    linarith

/-- Witness for the complement law at a concrete contract with zero drift
and one tree level. -/
theorem binom_mass_complement_witness :
    (∑ j ∈ Finset.range 2,
      Bopm.binomPmf 1
        (Bopm.p_real ⟨1, 100, 90, 0.2, 0.02, 0, "call", "eu"⟩ 0 1) j) = 1
    ∧ Bopm.popMass ⟨1, 100, 90, 0.2, 0.02, 0, "call", "eu"⟩ 0 0 1 +
        Bopm.notPopMass ⟨1, 100, 90, 0.2, 0.02, 0, "call", "eu"⟩ 0 0 1 = 1 :=
  binom_mass_complement ⟨1, 100, 90, 0.2, 0.02, 0, "call", "eu"⟩ 0 0 1
    (p_real_mem_unit ⟨1, 100, 90, 0.2, 0.02, 0, "call", "eu"⟩ 1
      (by
        show (0 : ℝ) < 0.2 * Real.sqrt (1 / ((1 : ℕ) : ℝ))
        positivity)).1
    (p_real_mem_unit ⟨1, 100, 90, 0.2, 0.02, 0, "call", "eu"⟩ 1
      (by
        show (0 : ℝ) < 0.2 * Real.sqrt (1 / ((1 : ℕ) : ℝ))
        positivity)).2


/-- One backward induction sweep in the scalar reading of the spec: the
discounted risk neutral expectation of each pair of adjacent nodes. -/
noncomputable def euroStep (disc p : ℝ) (vs : List ℝ) : List ℝ :=
  List.zipWith (fun a b => disc * (p * a + (1 - p) * b)) vs.dropLast vs.tail

namespace NP

/-- Scalar against scalar broadcasting. -/
theorem bop_ss (f : ℝ → ℝ → ℝ) (a b : ℝ) :
    bop f (.scalar a) (.scalar b) = some (.scalar (f a b)) := rfl

/-- Scalar against 2-d broadcasting. -/
theorem bop_sm (f : ℝ → ℝ → ℝ) (a : ℝ) (yss : List (List ℝ)) :
    bop f (.scalar a) (.mat yss) =
      some (.mat (yss.map (List.map (fun b => f a b)))) := rfl

/-- The 2-d against scalar broadcasting. -/
theorem bop_ms (f : ℝ → ℝ → ℝ) (xss : List (List ℝ)) (b : ℝ) :
    bop f (.mat xss) (.scalar b) =
      some (.mat (xss.map (List.map (fun a => f a b)))) := rfl

/-- A ufunc on a scalar. -/
theorem umap_s (f : ℝ → ℝ) (x : ℝ) : umap f (.scalar x) = .scalar (f x) := rfl

/-- A ufunc on a 2-d array. -/
theorem umap_m (f : ℝ → ℝ) (rows : List (List ℝ)) :
    umap f (.mat rows) = .mat (rows.map (List.map f)) := rfl

/-- The column helper is the identity on scalars. -/
theorem to_col_s (x : ℝ) : to_col (.scalar x) = some (.scalar x) := rfl

/-- Row broadcast of two single row arrays of equal width combines them
elementwise. -/
theorem bcast2_single (f : ℝ → ℝ → ℝ) (xs ys : List ℝ)
    (h : xs.length = ys.length) :
    bcast2 f [xs] [ys] = some [List.zipWith f xs ys] := by
  simp [bcast2, bcast1, h, List.mapM.loop]

/-- Single row against single row broadcasting of equal widths. -/
theorem bop_mat1_mat1 (f : ℝ → ℝ → ℝ) (xs ys : List ℝ)
    (h : xs.length = ys.length) :
    bop f (.mat [xs]) (.mat [ys]) = some (.mat [List.zipWith f xs ys]) := by
  show (bcast2 f [xs] [ys]).map mat = _
  rw [bcast2_single f xs ys h]
  rfl

/-- Slicing away the last column of a single row array. -/
theorem slInit_mat1 (xs : List ℝ) :
    slInit (.mat [xs]) = some (.mat [xs.dropLast]) := rfl

/-- Slicing away the first column of a single row array. -/
theorem slTail_mat1 (xs : List ℝ) :
    slTail (.mat [xs]) = some (.mat [xs.tail]) := rfl

end NP

/-- On a single row state with scalar parameters and a region other than
us, one lattice iteration performs exactly the discounted expectation
sweep of the spec. -/
theorem backLoop_succ_scalar (typ rg : String) (hrg : rg ≠ "us")
    (S K u d p r dt : ℝ) (k : ℕ) (row : List ℝ) :
    Bopm.backLoop typ rg (.scalar S) (.scalar K) (.scalar u) (.scalar d)
        (.scalar p) (.scalar r) (.scalar dt) (k + 1) (.mat [row]) =
      Bopm.backLoop typ rg (.scalar S) (.scalar K) (.scalar u) (.scalar d)
        (.scalar p) (.scalar r) (.scalar dt) k
        (.mat [euroStep (Real.exp (-r * dt)) p row]) := by
  conv_lhs => unfold Bopm.backLoop
  simp only [NP.slInit_mat1, NP.slTail_mat1, Option.bind_eq_bind,
    Option.some_bind, NP.bop_ss, NP.bop_sm, NP.umap_s, if_neg hrg,
    List.map_cons, List.map_nil]
  rw [NP.bop_mat1_mat1 (· + ·) _ _ (by simp)]
  simp only [NP.bop_sm, Option.some_bind, List.map_cons, List.map_nil,
    List.map_zipWith, pure]
  unfold euroStep
  rw [List.zipWith_map]

/-- With scalar parameters and a region other than us the whole backward
loop is the k fold iterate of the spec sweep on the single row. -/
theorem backLoop_scalar (typ rg : String) (hrg : rg ≠ "us")
    (S K u d p r dt : ℝ) : ∀ (k : ℕ) (row : List ℝ),
    Bopm.backLoop typ rg (.scalar S) (.scalar K) (.scalar u) (.scalar d)
        (.scalar p) (.scalar r) (.scalar dt) k (.mat [row]) =
      some (.mat [(euroStep (Real.exp (-r * dt)) p)^[k] row]) := by
  intro k
  induction k with
  | zero => intro row; rfl
  | succ k ih =>
    intro row
    rw [backLoop_succ_scalar typ rg hrg S K u d p r dt k row, ih,
      ← Function.iterate_succ_apply]

/-- Terminal payoff row in the scalar reading of the spec: node j holds
the payoff of spot times u to the n minus j times d to the j. -/
noncomputable def termRow (o : OptionC) (n : ℕ) : List ℝ :=
  (List.range (n + 1)).map (fun j : ℕ =>
    if o.type = "call" then
      max (o.spot *
        Real.rpow (Real.exp (o.sigma * Real.sqrt (o.tau / n))) ((n : ℝ) - (j : ℝ)) *
        Real.rpow (1 / Real.exp (o.sigma * Real.sqrt (o.tau / n))) (j : ℝ) -
          o.strike) 0
    else
      max (o.strike - o.spot *
        Real.rpow (Real.exp (o.sigma * Real.sqrt (o.tau / n))) ((n : ℝ) - (j : ℝ)) *
        Real.rpow (1 / Real.exp (o.sigma * Real.sqrt (o.tau / n))) (j : ℝ)) 0)

set_option maxHeartbeats 1000000 in
/-- For a contract with scalar fields, a call or put kind and a region
other than us, the lattice pricer returns the one element vector obtained
by iterating the discounted expectation sweep n times over the terminal
payoff row built from the spec tree parameters. -/
theorem bopm_scalar_char (o : OptionC) (n : ℕ)
    (hty : o.type = "call" ∨ o.type = "put") (hrg : o.region ≠ "us") :
    Bopm.option_price o.toB n =
      some (.vec ((euroStep (Real.exp (-o.r * (o.tau / n)))
          ((Real.exp ((o.r - o.div) * (o.tau / n)) -
              1 / Real.exp (o.sigma * Real.sqrt (o.tau / n))) /
            (Real.exp (o.sigma * Real.sqrt (o.tau / n)) -
              1 / Real.exp (o.sigma * Real.sqrt (o.tau / n)))))^[n]
        (termRow o n))) := by
  rcases hty with hty | hty
  · simp only [termRow, if_pos hty]
    unfold Bopm.option_price OptionC.toB
    simp only [NP.to_col_s]
    iterate 3 (rw [Option.bind_eq_bind', Option.some_bind']; beta_reduce)
    rw [NP.bop_ss, Option.bind_eq_bind', Option.some_bind']; beta_reduce
    rw [NP.umap_s, NP.bop_ss, Option.bind_eq_bind', Option.some_bind']
    beta_reduce
    rw [NP.umap_s, NP.bop_ss, Option.bind_eq_bind', Option.some_bind']
    beta_reduce
    rw [NP.bop_ss, Option.bind_eq_bind', Option.some_bind']; beta_reduce
    rw [NP.bop_ss, Option.bind_eq_bind', Option.some_bind']; beta_reduce
    rw [NP.umap_s, NP.bop_ss, Option.bind_eq_bind', Option.some_bind']
    beta_reduce
    rw [NP.bop_ss, Option.bind_eq_bind', Option.some_bind']; beta_reduce
    rw [NP.bop_ss, Option.bind_eq_bind', Option.some_bind']; beta_reduce
    rw [NP.bop_sm, Option.bind_eq_bind', Option.some_bind']; beta_reduce
    rw [List.map_cons, List.map_nil]
    rw [NP.bop_sm, Option.bind_eq_bind', Option.some_bind']; beta_reduce
    rw [List.map_cons, List.map_nil]
    rw [NP.bop_sm, Option.bind_eq_bind', Option.some_bind']; beta_reduce
    rw [List.map_cons, List.map_nil]
    rw [NP.bop_sm, Option.bind_eq_bind', Option.some_bind']; beta_reduce
    rw [List.map_cons, List.map_nil]
    rw [NP.bop_mat1_mat1 (· * ·) _ _ (by simp), Option.bind_eq_bind',
      Option.some_bind']
    beta_reduce
    rw [if_pos hty]
    rw [NP.bop_ms, List.map_cons, List.map_nil, Option.bind_eq_bind',
      Option.some_bind']
    beta_reduce
    rw [NP.umap_m, List.map_cons, List.map_nil, Option.pure_def,
      Option.bind_eq_bind', Option.some_bind']
    beta_reduce
    rw [Option.bind_eq_bind', backLoop_scalar o.type o.region hrg,
      Option.some_bind']
    beta_reduce
    simp only [NP.ndim]
    rw [if_pos (show (2 : ℕ) > 1 by norm_num)]
    simp only [NP.flatten, List.flatten_cons, List.flatten_nil,
      List.append_nil]
    simp only [List.map_map, List.zipWith_map, List.zipWith_same,
      Function.comp_def]
  · simp only [termRow, if_neg (show ¬ o.type = "call" by rw [hty]; decide)]
    unfold Bopm.option_price OptionC.toB
    simp only [NP.to_col_s]
    iterate 3 (rw [Option.bind_eq_bind', Option.some_bind']; beta_reduce)
    rw [NP.bop_ss, Option.bind_eq_bind', Option.some_bind']; beta_reduce
    rw [NP.umap_s, NP.bop_ss, Option.bind_eq_bind', Option.some_bind']
    beta_reduce
    rw [NP.umap_s, NP.bop_ss, Option.bind_eq_bind', Option.some_bind']
    beta_reduce
    rw [NP.bop_ss, Option.bind_eq_bind', Option.some_bind']; beta_reduce
    rw [NP.bop_ss, Option.bind_eq_bind', Option.some_bind']; beta_reduce
    rw [NP.umap_s, NP.bop_ss, Option.bind_eq_bind', Option.some_bind']
    beta_reduce
    rw [NP.bop_ss, Option.bind_eq_bind', Option.some_bind']; beta_reduce
    rw [NP.bop_ss, Option.bind_eq_bind', Option.some_bind']; beta_reduce
    rw [NP.bop_sm, Option.bind_eq_bind', Option.some_bind']; beta_reduce
    rw [List.map_cons, List.map_nil]
    rw [NP.bop_sm, Option.bind_eq_bind', Option.some_bind']; beta_reduce
    rw [List.map_cons, List.map_nil]
    rw [NP.bop_sm, Option.bind_eq_bind', Option.some_bind']; beta_reduce
    rw [List.map_cons, List.map_nil]
    rw [NP.bop_sm, Option.bind_eq_bind', Option.some_bind']; beta_reduce
    rw [List.map_cons, List.map_nil]
    rw [NP.bop_mat1_mat1 (· * ·) _ _ (by simp), Option.bind_eq_bind',
      Option.some_bind']
    beta_reduce
    rw [if_neg (show ¬ o.type = "call" by rw [hty]; decide), if_pos hty]
    rw [NP.bop_sm, List.map_cons, List.map_nil, Option.bind_eq_bind',
      Option.some_bind']
    beta_reduce
    rw [NP.umap_m, List.map_cons, List.map_nil, Option.pure_def,
      Option.bind_eq_bind', Option.some_bind']
    beta_reduce
    rw [Option.bind_eq_bind', backLoop_scalar o.type o.region hrg,
      Option.some_bind']
    beta_reduce
    simp only [NP.ndim]
    rw [if_pos (show (2 : ℕ) > 1 by norm_num)]
    simp only [NP.flatten, List.flatten_cons, List.flatten_nil,
      List.append_nil]
    simp only [List.map_map, List.zipWith_map, List.zipWith_same,
      Function.comp_def]

theorem rpow_fn_one (x : ℝ) : Real.rpow x 1 = x := Real.rpow_one x

theorem rpow_fn_zero (x : ℝ) : Real.rpow x 0 = 1 := Real.rpow_zero x

/-- C6: for a european contract with scalar fields and one or more tree
levels, the lattice price is the n fold discounted expectation sweep over
the terminal payoff row built with dt tau over n, up factor exp of sigma
root dt, down factor its reciprocal and the risk neutral probability of
the spec; in particular for one level the result is the single step
binomial value of the two terminal payoffs. -/
theorem lattice_scalar_european_formulas (o : OptionC) (n : ℕ) (hn : 0 < n)
    (hty : o.type = "call" ∨ o.type = "put") (hrg : o.region = "eu") :
    Bopm.option_price o.toB n =
      some (.vec ((euroStep (Real.exp (-o.r * (o.tau / n)))
          ((Real.exp ((o.r - o.div) * (o.tau / n)) -
              1 / Real.exp (o.sigma * Real.sqrt (o.tau / n))) /
            (Real.exp (o.sigma * Real.sqrt (o.tau / n)) -
              1 / Real.exp (o.sigma * Real.sqrt (o.tau / n)))))^[n]
        (termRow o n)))
    ∧ (n = 1 →
      Bopm.option_price o.toB 1 =
        some (.vec [Real.exp (-o.r * (o.tau / 1)) *
          (((Real.exp ((o.r - o.div) * (o.tau / 1)) -
                1 / Real.exp (o.sigma * Real.sqrt (o.tau / 1))) /
              (Real.exp (o.sigma * Real.sqrt (o.tau / 1)) -
                1 / Real.exp (o.sigma * Real.sqrt (o.tau / 1)))) *
            (if o.type = "call" then
              max (o.spot * Real.exp (o.sigma * Real.sqrt (o.tau / 1)) - o.strike) 0
            else
              max (o.strike - o.spot * Real.exp (o.sigma * Real.sqrt (o.tau / 1))) 0) +
          (1 - ((Real.exp ((o.r - o.div) * (o.tau / 1)) -
                1 / Real.exp (o.sigma * Real.sqrt (o.tau / 1))) /
              (Real.exp (o.sigma * Real.sqrt (o.tau / 1)) -
                1 / Real.exp (o.sigma * Real.sqrt (o.tau / 1))))) *
            (if o.type = "call" then
              max (o.spot * (1 / Real.exp (o.sigma * Real.sqrt (o.tau / 1))) -
                o.strike) 0
            else
              max (o.strike -
                o.spot * (1 / Real.exp (o.sigma * Real.sqrt (o.tau / 1)))) 0))])) := by
  have hrg2 : o.region ≠ "us" := by rw [hrg]; decide
  refine ⟨bopm_scalar_char o n hty hrg2, fun h1 => ?_⟩
  rw [bopm_scalar_char o 1 hty hrg2, Function.iterate_one]
  have hr2 : List.range 2 = [0, 1] := rfl
  simp only [termRow, hr2, List.map_cons, List.map_nil, Nat.cast_one,
    Nat.cast_zero, euroStep, List.dropLast, List.tail_cons,
    List.zipWith_cons_cons, List.zipWith_nil_right, List.zipWith_nil_left,
    sub_zero, sub_self, rpow_fn_one, rpow_fn_zero, mul_one, one_mul]

/-- Witness for the lattice formulas at the boundary example of the spec
with spot and strike one hundred, volatility one fifth, rate two percent,
one year and one level. -/
theorem lattice_scalar_european_formulas_witness :
    (Bopm.option_price (OptionC.toB ⟨1, 100, 100, 0.2, 0.02, 0, "call", "eu"⟩) 1 =
      some (.vec ((euroStep (Real.exp (-(0.02 : ℝ) * (1 / ((1 : ℕ) : ℝ))))
          ((Real.exp (((0.02 : ℝ) - 0) * (1 / ((1 : ℕ) : ℝ))) -
              1 / Real.exp ((0.2 : ℝ) * Real.sqrt (1 / ((1 : ℕ) : ℝ)))) /
            (Real.exp ((0.2 : ℝ) * Real.sqrt (1 / ((1 : ℕ) : ℝ))) -
              1 / Real.exp ((0.2 : ℝ) * Real.sqrt (1 / ((1 : ℕ) : ℝ))))))^[1]
        (termRow ⟨1, 100, 100, 0.2, 0.02, 0, "call", "eu"⟩ 1))))
    ∧ (1 = 1 →
      Bopm.option_price (OptionC.toB ⟨1, 100, 100, 0.2, 0.02, 0, "call", "eu"⟩) 1 =
        some (.vec [Real.exp (-(0.02 : ℝ) * (1 / 1)) *
          (((Real.exp (((0.02 : ℝ) - 0) * (1 / 1)) -
                1 / Real.exp ((0.2 : ℝ) * Real.sqrt (1 / 1))) /
              (Real.exp ((0.2 : ℝ) * Real.sqrt (1 / 1)) -
                1 / Real.exp ((0.2 : ℝ) * Real.sqrt (1 / 1)))) *
            max (100 * Real.exp ((0.2 : ℝ) * Real.sqrt (1 / 1)) - 100) 0 +
          (1 - ((Real.exp (((0.02 : ℝ) - 0) * (1 / 1)) -
                1 / Real.exp ((0.2 : ℝ) * Real.sqrt (1 / 1))) /
              (Real.exp ((0.2 : ℝ) * Real.sqrt (1 / 1)) -
                1 / Real.exp ((0.2 : ℝ) * Real.sqrt (1 / 1))))) *
            max (100 * (1 / Real.exp ((0.2 : ℝ) * Real.sqrt (1 / 1))) - 100) 0)])) :=
  lattice_scalar_european_formulas ⟨1, 100, 100, 0.2, 0.02, 0, "call", "eu"⟩ 1 (by norm_num)
    (Or.inl rfl) rfl

/-- C7 test theorem: a contract with all scalar fields priced on a one
level lattice comes back as a vector of length one rather than a scalar,
because the step index row makes every option value array two dimensional
and the flatten branch is always taken. -/
theorem scalar_contract_yields_len_one_vector :
    ∃ xs : List ℝ,
      Bopm.option_price (OptionC.toB ⟨1, 100, 90, 0.2, 0.02, 0, "call", "eu"⟩) 1 =
        some (NP.vec xs) ∧ xs.length = 1 := by
  refine ⟨euroStep (Real.exp (-(0.02 : ℝ) * (1 / ((1 : ℕ) : ℝ))))
      ((Real.exp (((0.02 : ℝ) - 0) * (1 / ((1 : ℕ) : ℝ))) -
          1 / Real.exp ((0.2 : ℝ) * Real.sqrt (1 / ((1 : ℕ) : ℝ)))) /
        (Real.exp ((0.2 : ℝ) * Real.sqrt (1 / ((1 : ℕ) : ℝ))) -
          1 / Real.exp ((0.2 : ℝ) * Real.sqrt (1 / ((1 : ℕ) : ℝ)))))
      (termRow ⟨1, 100, 90, 0.2, 0.02, 0, "call", "eu"⟩ 1), ?_, ?_⟩
  · rw [bopm_scalar_char ⟨1, 100, 90, 0.2, 0.02, 0, "call", "eu"⟩ 1
      (Or.inl rfl) (by decide), Function.iterate_one]
  · rfl
